import Mathlib

/-!
Shallow embedding of the compliance-gate + approval-workflow core of the
`adobe_addon` repository, together with theorems settling the frozen claims.

Source files embedded:
* keyword-matching compliance checker (`getRules`, `checkCompliance`,
  `generateRewrite`) — the rule-matching evaluator;
* RAG compliance checker (`checkCompliance` / `analyzeWithGemini` in
  `server/src/services/complianceChecker.js`), with the external Gemini
  backend and the vector-store search modelled as explicit outcome
  parameters;
* workflow routes (`server/src/routes/compliance.js`): content create,
  content update, submit (with the high-severity gate), approve, reject;
* `chunkText` from the vector-store service.

Modelling conventions: JS strings become `String`/`List Char`; database
rows become Lean structures (timestamps `createdAt`/`decidedAt`/`checkedAt`
are dropped — no claim mentions them); `async` calls that can throw become
`Except`/`Option` values or explicit outcome parameters; JS array sort with
a comparator is embedded as a stable insertion sort, matching the
ECMAScript guarantee that `Array.prototype.sort` is stable.
-/

namespace AdobeAddon

/-- Severity levels used by the policy-rule checker.  The code's
`severityOrder = \x7bhigh: 0, medium: 1, low: 2\x7d` table defines exactly these
three values; the data model constrains `PolicyRule.severity` to them. -/
inductive Sev where
  | high
  | medium
  | low
deriving Repr, DecidableEq

/-- Rank used for sorting: `severityOrder[s]` from the source. -/
def Sev.rank : Sev → Nat
  | .high => 0
  | .medium => 1
  | .low => 2

/-- A policy rule row (`policy_rules` table / `FALLBACK_RULES` entries).
The `id`, `isActive` and timestamp columns are not carried: `getRules`
already filters on `isActive`, and `id` is only echoed into the violation
object. -/
structure PolicyRule where
  pattern : String
  reason : String
  suggestion : String
  category : String
  severity : Sev
deriving Repr, DecidableEq

/-- One entry of the `violations` array built by `checkCompliance`
(the derived `id` field is omitted). -/
structure Violation where
  pattern : String
  reason : String
  suggestion : String
  category : String
  severity : Sev
deriving Repr, DecidableEq

/-- The hardcoded `FALLBACK_RULES` list. -/
def FALLBACK_RULES : List PolicyRule :=
  [ { pattern := "100% waterproof"
    , reason := "Product is only water-resistant (IP67), not fully waterproof."
    , suggestion := "water-resistant (IP67 rated)"
    , category := "legal"
    , severity := .high }
  , { pattern := "waterproof"
    , reason := "Avoid unqualified 'waterproof' claims; specify rating."
    , suggestion := "water-resistant"
    , category := "legal"
    , severity := .medium }
  , { pattern := "guaranteed"
    , reason := "'Guaranteed' implies legal warranty; verify with Legal."
    , suggestion := "designed to"
    , category := "legal"
    , severity := .medium }
  , { pattern := "never fails"
    , reason := "Absolute reliability claims are legally risky."
    , suggestion := "highly reliable"
    , category := "legal"
    , severity := .high } ]

/-- `getRules`: the database query for active rules either fails
(`none`, the `catch` branch) or returns a list; an empty list also falls
back to `FALLBACK_RULES` (`rules.length > 0 ? rules : FALLBACK_RULES`). -/
def getRules (dbActiveRules : Option (List PolicyRule)) : List PolicyRule :=
  match dbActiveRules with
  | some rules => if rules.length > 0 then rules else FALLBACK_RULES
  | none => FALLBACK_RULES

/-- `haystack.includes(needle)` on character lists (exact, case-sensitive;
callers lower-case both sides first, as the source does). -/
def containsSub (hay pat : List Char) : Bool :=
  match hay with
  | [] => pat.isEmpty
  | _ :: t => pat.isPrefixOf hay || containsSub t pat

/-- `s.toLowerCase()` on the character list of a string. -/
def lowerList (s : String) : List Char :=
  s.toList.map Char.toLower

/-- `text.toLowerCase().includes(pattern.toLowerCase())`. -/
def lowerContains (text pattern : String) : Bool :=
  containsSub (lowerList text) (lowerList pattern)

/-- The violation object pushed for a matching rule. -/
def ruleViolation (r : PolicyRule) : Violation :=
  { pattern := r.pattern
  , reason := r.reason
  , suggestion := r.suggestion
  , category := r.category
  , severity := r.severity }

/-- The `violations` array in rule-iteration order, before sorting:
one entry per rule whose lower-cased pattern occurs in the lower-cased
text. -/
def matchedViolations (rules : List PolicyRule) (text : String) : List Violation :=
  rules.filterMap fun r =>
    if lowerContains text r.pattern then some (ruleViolation r) else none

/-- Comparator relation of
`violations.sort((a, b) => severityOrder[a.severity] - severityOrder[b.severity])`;
the JS sort is stable, embedded as a stable insertion sort. -/
def sevLE (a b : Violation) : Prop := a.severity.rank ≤ b.severity.rank

instance : DecidableRel sevLE := fun a b =>
  inferInstanceAs (Decidable (a.severity.rank ≤ b.severity.rank))

/-- Comparator relation of the rewrite's
`sort((a, b) => b.pattern.length - a.pattern.length)` (longest pattern
first, stable). -/
def lenGE (a b : Violation) : Prop := b.pattern.length ≤ a.pattern.length

instance : DecidableRel lenGE := fun a b =>
  inferInstanceAs (Decidable (b.pattern.length ≤ a.pattern.length))

/-- One pass of the global case-insensitive literal replacement
`text.replace(new RegExp(escapeRegex(pattern), "gi"), suggestion)`:
scan left to right, replace every leftmost non-overlapping
case-insensitive occurrence of `p` by `r`.  `escapeRegex` makes the
pattern a literal, so regex metacharacters play no role.  `fuel` bounds
the scan (callers pass the text length; every step consumes at least one
character since the matched patterns are non-empty).  Substitution
patterns (`$&` etc.) in the replacement string are not modelled — no
suggestion in the repository contains `$`. -/
def replaceCIAux (p r : List Char) : Nat → List Char → List Char
  | _, [] => []
  | 0, s => s
  | fuel + 1, c :: cs =>
      if p ≠ [] ∧ (p.map Char.toLower).isPrefixOf ((c :: cs).map Char.toLower) then
        r ++ replaceCIAux p r fuel ((c :: cs).drop p.length)
      else
        c :: replaceCIAux p r fuel cs

/-- Case-insensitive global literal replacement on strings. -/
def replaceCI (text pattern repl : String) : String :=
  String.mk (replaceCIAux pattern.toList repl.toList text.toList.length text.toList)

/-- `generateRewrite`: sort matched violations by pattern length
(longest first, stable) and fold the case-insensitive global
replacement over them. -/
def generateRewrite (text : String) (violations : List Violation) : String :=
  let sortedViolations := violations.insertionSort lenGE
  sortedViolations.foldl (fun acc v => replaceCI acc v.pattern v.suggestion) text

/-- The result object returned by the keyword `checkCompliance`
(`checkedAt` timestamp dropped). -/
structure CheckResult where
  isCompliant : Bool
  violations : List Violation
  suggestedRewrite : String
  originalText : String
deriving Repr, DecidableEq

/-- `checkCompliance(text)` of the keyword-matching checker: fetch rules
(with fallback), collect matches in rule order, stable-sort by severity
(high, medium, low), and generate the rewrite. -/
def checkCompliance (dbActiveRules : Option (List PolicyRule)) (text : String) :
    CheckResult :=
  let rules := getRules dbActiveRules
  let violations := (matchedViolations rules text).insertionSort sevLE
  { isCompliant := violations.length == 0
  , violations := violations
  , suggestedRewrite := generateRewrite text violations
  , originalText := text }

/-! ## RAG compliance checker (`server/src/services/complianceChecker.js`)

The Gemini call and the vector-store search are external effects; they are
modelled as explicit outcome parameters.  The result shape returned to the
workflow routes is `\x7bisCompliant, issues, checkedAt\x7d` (timestamp dropped). -/

/-- An issue as normalized by `analyzeWithGemini` and as stored inside a
content's `complianceResult` JSON.  `severity` stays a raw string: the
model's reply is only defaulted (`issue.severity || "medium"`), never
validated against the three levels. -/
structure RagIssue where
  text : String
  severity : String
  reason : String
  suggestion : String
deriving Repr, DecidableEq

/-- The analysis object produced by `analyzeWithGemini`. -/
structure RagAnalysis where
  isCompliant : Bool
  issues : List RagIssue
deriving Repr, DecidableEq

/-- One issue as parsed from the model's JSON reply; every field may be
missing (JS `undefined`). -/
structure ParsedIssue where
  text : Option String
  severity : Option String
  reason : Option String
  suggestion : Option String
deriving Repr, DecidableEq

/-- The JSON object parsed from the model's reply: `isCompliant` may be
any value (only literal `true` counts, via `=== true`); `issues` is
`none` when absent or not an array. -/
structure ParsedAnalysis where
  isCompliant : Option Bool
  issues : Option (List ParsedIssue)
deriving Repr, DecidableEq

/-- Outcome of the `model.generateContent` call plus JSON extraction:
either a parsed object, or the `catch` branch (API error, timeout, or a
reply no JSON object could be extracted from). -/
inductive GeminiOutcome where
  | parsed (analysis : ParsedAnalysis)
  | failed
deriving Repr, DecidableEq

/-- Field defaulting applied to each parsed issue
(`issue.severity || "medium"`, empty-string defaults elsewhere). -/
def normalizeIssue (i : ParsedIssue) : RagIssue :=
  { text := i.text.getD ""
  , severity := i.severity.getD "medium"
  , reason := i.reason.getD ""
  , suggestion := i.suggestion.getD "" }

/-- The conservative fallback returned by `analyzeWithGemini` when the
backend fails: non-compliant, one synthetic issue. -/
def fallbackAnalysis (text : String) : RagAnalysis :=
  { isCompliant := false
  , issues := [ { text := text
                , severity := "medium"
                , reason := "Unable to analyze compliance due to API error"
                , suggestion := "Please review manually" } ] }

/-- `analyzeWithGemini(text, context)`: normalize a successful reply, or
degrade to the fallback verdict on failure.  The retrieved context only
shapes the prompt, hence only the outcome parameter. -/
def analyzeWithGemini (text : String) (outcome : GeminiOutcome) : RagAnalysis :=
  match outcome with
  | .parsed p =>
      { isCompliant := p.isCompliant == some true
      , issues := (p.issues.getD []).map normalizeIssue }
  | .failed => fallbackAnalysis text

/-- The result returned by the RAG `checkCompliance` (and the shape stored
in `Content.complianceResult`). -/
structure RagResult where
  isCompliant : Bool
  issues : List RagIssue
deriving Repr, DecidableEq

/-- The RAG `checkCompliance(text)`: if the vector-store search throws,
the whole call rethrows (`Except.error`); otherwise the Gemini analysis
(with its internal fallback) is returned. -/
def ragCheckCompliance (text : String) (search : Except Unit (List String))
    (gemini : GeminiOutcome) : Except Unit RagResult :=
  match search with
  | .error _ => .error ()
  | .ok _chunks =>
      let analysis := analyzeWithGemini text gemini
      .ok { isCompliant := analysis.isCompliant, issues := analysis.issues }

/-! ## Workflow engine (`server/src/routes/compliance.js`) -/

/-- `UserRole` enum. -/
inductive Role where
  | DESIGNER
  | MANAGER
  | LEGAL
  | EXECUTIVE
  | ADMIN
deriving Repr, DecidableEq

/-- `ContentStatus` enum. -/
inductive ContentStatus where
  | DRAFT
  | PENDING_REVIEW
  | IN_REVIEW
  | CHANGES_REQUESTED
  | APPROVED
  | PUBLISHED
deriving Repr, DecidableEq

/-- `WorkflowStatus` enum. -/
inductive WorkflowStatus where
  | ACTIVE
  | COMPLETED
  | CANCELLED
deriving Repr, DecidableEq

/-- `StepStatus` enum. -/
inductive StepStatus where
  | PENDING
  | IN_PROGRESS
  | APPROVED
  | REJECTED
  | SKIPPED
deriving Repr, DecidableEq

/-- A `users` row (avatar and timestamps dropped). -/
structure User where
  id : Nat
  name : String
  email : String
  role : Role
deriving Repr, DecidableEq

/-- An `approval_steps` row (`decidedAt` and timestamps dropped; `id` is
the primary key, unique across steps of a workflow). -/
structure ApprovalStep where
  id : Nat
  stepNumber : Nat
  stepName : String
  requiredRole : Role
  status : StepStatus
  assigneeId : Option Nat
  feedback : Option String
deriving Repr, DecidableEq

/-- A `workflows` row together with its steps. -/
structure Workflow where
  currentStep : Nat
  status : WorkflowStatus
  steps : List ApprovalStep
deriving Repr, DecidableEq

/-- A `content` row together with its (at most one) workflow.  The stored
`complianceResult` JSON blob is the structured result the RAG checker
produced (in this model parsing never fails, so the route's
`JSON.parse` try/catch is the identity). -/
structure Content where
  title : String
  text : String
  description : Option String
  status : ContentStatus
  version : Nat
  complianceResult : Option RagResult
  creatorId : Nat
  workflow : Option Workflow
deriving Repr, DecidableEq

/-- Error responses of the workflow routes relevant to the claims. -/
inductive WError where
  | NotFound
  | Blocked (highIssues : List RagIssue)
  | NotInProgress
  | RoleMismatch
  | MissingFeedback
  | CannotEdit
deriving Repr, DecidableEq

/-- One entry of `DEFAULT_WORKFLOW_STEPS`. -/
structure StepTemplate where
  stepNumber : Nat
  stepName : String
  requiredRole : Role
deriving Repr, DecidableEq

/-- The fixed step template. -/
def DEFAULT_WORKFLOW_STEPS : List StepTemplate :=
  [ { stepNumber := 1, stepName := "Manager Review", requiredRole := .MANAGER }
  , { stepNumber := 2, stepName := "Legal Review", requiredRole := .LEGAL }
  , { stepNumber := 3, stepName := "Executive Approval", requiredRole := .EXECUTIVE } ]

/-- The workflow created by submit: `currentStep = 1`, `ACTIVE`, steps
instantiated from the template with step 1 `IN_PROGRESS` and the rest
`PENDING`.  Fresh database ids are modelled by the step numbers (the
previous workflow, if any, is deleted wholesale). -/
def freshWorkflow : Workflow :=
  { currentStep := 1
  , status := .ACTIVE
  , steps := DEFAULT_WORKFLOW_STEPS.map fun t =>
      { id := t.stepNumber
      , stepNumber := t.stepNumber
      , stepName := t.stepName
      , requiredRole := t.requiredRole
      , status := if t.stepNumber == 1 then .IN_PROGRESS else .PENDING
      , assigneeId := none
      , feedback := none } }

/-- The high-severity issues the submit gate filters out of the stored
result (`compliance.issues?.filter(i => i.severity === "high")`). -/
def highIssuesOf (comp : RagResult) : List RagIssue :=
  comp.issues.filter fun i => i.severity == "high"

/-- Effect of an allowed submit: delete any existing workflow, create the
fresh one, set content status to `PENDING_REVIEW`. -/
def submitReset (c : Content) : Content :=
  { c with workflow := some freshWorkflow, status := .PENDING_REVIEW }

/-- `POST /api/workflow/content/:id/submit` on an existing content row:
if a compliance result is stored and holds high-severity issues, block;
otherwise (including when no result is stored at all) reset/create the
workflow and mark the content `PENDING_REVIEW`. -/
def submitContent (c : Content) : Except WError Content :=
  match c.complianceResult with
  | some comp =>
      if (highIssuesOf comp).length > 0 then .error (.Blocked (highIssuesOf comp))
      else .ok (submitReset c)
  | none => .ok (submitReset c)

/-- Role gate of the approve route: checked only when a `userId` was
supplied (`actor` is the looked-up user; a supplied but unknown id also
yields the 403, folded into the mismatch case). -/
def actorMismatch (actor : Option User) (step : ApprovalStep) : Bool :=
  match actor with
  | some u => u.role != step.requiredRole
  | none => false

/-- The step update performed by approve. -/
def setApproved (userId : Option Nat) (s : ApprovalStep) : ApprovalStep :=
  { s with status := .APPROVED, assigneeId := userId }

/-- `POST /api/workflow/steps/:id/approve`: find the step, require
`IN_PROGRESS`, check the role, mark it approved; then either promote the
step numbered `stepNumber + 1` (advance `currentStep`, content
`IN_REVIEW`) or, when none exists, complete the workflow (content
`APPROVED`). -/
def approveStep (c : Content) (stepId : Nat) (actor : Option User) :
    Except WError Content :=
  match c.workflow with
  | none => .error .NotFound
  | some w =>
    match w.steps.find? (fun s => s.id == stepId) with
    | none => .error .NotFound
    | some step =>
      if step.status != .IN_PROGRESS then .error .NotInProgress
      else if actorMismatch actor step then .error .RoleMismatch
      else
        let approvedSteps := w.steps.map fun s =>
          if s.id == step.id then setApproved (actor.map fun u => u.id) s else s
        match w.steps.find? (fun s => s.stepNumber == step.stepNumber + 1) with
        | some nxt =>
            let steps2 := approvedSteps.map fun s =>
              if s.id == nxt.id then { s with status := .IN_PROGRESS } else s
            .ok { c with
                  workflow := some { w with steps := steps2, currentStep := nxt.stepNumber },
                  status := .IN_REVIEW }
        | none =>
            .ok { c with
                  workflow := some { w with steps := approvedSteps, status := .COMPLETED },
                  status := .APPROVED }

/-- `POST /api/workflow/steps/:id/reject`: require non-empty feedback
(JS falsiness) and an `IN_PROGRESS` step; mark the step rejected and the
content `CHANGES_REQUESTED`.  The workflow row itself is not touched. -/
def rejectStep (c : Content) (stepId : Nat) (actor : Option User)
    (feedback : String) : Except WError Content :=
  if feedback == "" then .error .MissingFeedback
  else
    match c.workflow with
    | none => .error .NotFound
    | some w =>
      match w.steps.find? (fun s => s.id == stepId) with
      | none => .error .NotFound
      | some step =>
        if step.status != .IN_PROGRESS then .error .NotInProgress
        else
          let steps2 := w.steps.map fun s =>
            if s.id == step.id then
              { s with
                status := .REJECTED,
                assigneeId := actor.map fun u => u.id,
                feedback := some feedback }
            else s
          .ok { c with
                workflow := some { w with steps := steps2 },
                status := .CHANGES_REQUESTED }

/-- `PUT /api/workflow/content/:id`: only `DRAFT`/`CHANGES_REQUESTED`
content may be edited; a changed text triggers a compliance re-check
(whose failure keeps the old stored result); version always increments.
`recheck` stands for the `try \x7b await checkCompliance \x7d catch` call;
the `text`/`title` parameters follow JS falsiness (an empty string acts
like an absent field), `description` distinguishes absent
(`none`) from explicit `null` (`some none`). -/
def updateContent (c : Content) (text : Option String) (title : Option String)
    (description : Option (Option String)) (recheck : String → Option RagResult) :
    Except WError Content :=
  if !(c.status == .DRAFT || c.status == .CHANGES_REQUESTED) then .error .CannotEdit
  else
    let tEff : Option String :=
      match text with
      | some t => if t == "" then none else some t
      | none => none
    let newText := tEff.getD c.text
    let changed : Bool :=
      match tEff with
      | some t => t != c.text
      | none => false
    let cr : Option RagResult := if changed then recheck newText else c.complianceResult
    let stored : Option RagResult :=
      match cr with
      | some r => some r
      | none => c.complianceResult
    .ok { c with
          text := newText,
          title := (match title with
            | some t => if t == "" then c.title else t
            | none => c.title),
          description := (match description with
            | some d => d
            | none => c.description),
          version := c.version + 1,
          complianceResult := stored }

/-- `POST /api/workflow/content`: validate required fields, run the RAG
compliance check (a thrown check stores `null`), create a `DRAFT` row. -/
def createContent (title text : String) (description : Option String)
    (creatorId : Nat) (checkOutcome : Except Unit RagResult) : Option Content :=
  if title == "" || text == "" then none
  else some
    { title := title
    , text := text
    , description := description
    , status := .DRAFT
    , version := 1
    , complianceResult := checkOutcome.toOption
    , creatorId := creatorId
    , workflow := none }

/-! ## Invariants over the workflow aggregate -/

/-- The steps currently `IN_PROGRESS`. -/
def stepsInProgress (w : Workflow) : List ApprovalStep :=
  w.steps.filter fun s => s.status == .IN_PROGRESS

/-- Claim C2's invariant: every `ACTIVE` workflow has exactly one
`IN_PROGRESS` step, whose number is `currentStep`. -/
def activeInv (c : Content) : Bool :=
  match c.workflow with
  | some w =>
      w.status != .ACTIVE
        || ((stepsInProgress w).map (fun s => s.stepNumber) == [w.currentStep])
  | none => true

/-- The weakening that survives rejection: an `ACTIVE` workflow has at
most one `IN_PROGRESS` step, and when there is one its number is
`currentStep`. -/
def activeInvWeak (c : Content) : Bool :=
  match c.workflow with
  | some w =>
      w.status != .ACTIVE
        || (let l := (stepsInProgress w).map fun s => s.stepNumber
            l == [] || l == [w.currentStep])
  | none => true

/-! ## `chunkText` (vector-store service)

`chunkText(text, chunkSize = 500, overlap = 50)` is a `while` loop; it is
embedded with an explicit fuel parameter, `none` meaning the loop is
still running after `fuel` iterations.  Index arithmetic is over `Int`
because `start = end - overlap` goes negative for short texts. -/

/-- JS `String.prototype.slice` index normalization: a negative index
counts from the end (clamped at 0), a positive one is clamped at the
length. -/
def normIdx (len : Nat) (i : Int) : Nat :=
  if i < 0 then ((len : Int) + i).toNat else min i.toNat len

/-- `text.slice(start, stop)` on character lists. -/
def jsSlice (l : List Char) (start stop : Int) : List Char :=
  (l.take (normIdx l.length stop)).drop (normIdx l.length start)

/-- `chunk.trim()`. -/
def trimChars (l : List Char) : List Char :=
  ((l.dropWhile Char.isWhitespace).reverse.dropWhile Char.isWhitespace).reverse

/-- The `while (start < text.length)` loop of `chunkText`: slice a chunk,
push it if non-empty after trimming, step `start` to `end - overlap`,
break only when the new `start` reaches the text length. -/
def chunkTextLoop (text : List Char) (chunkSize overlap : Int) :
    Nat → Int → List (List Char) → Option (List (List Char))
  | 0, _, _ => none
  | fuel + 1, start, chunks =>
      if start < (text.length : Int) then
        let e := min (start + chunkSize) (text.length : Int)
        let chunk := trimChars (jsSlice text start e)
        let chunks2 := if chunk.length > 0 then chunks ++ [chunk] else chunks
        let start2 := e - overlap
        if start2 ≥ (text.length : Int) then some chunks2
        else chunkTextLoop text chunkSize overlap fuel start2 chunks2
      else some chunks

/-- `chunkText` with its default `chunkSize = 500`, `overlap = 50`. -/
def chunkText (text : String) (fuel : Nat) : Option (List String) :=
  (chunkTextLoop text.toList 500 50 fuel 0 []).map fun chunks =>
    chunks.map String.mk

/-! ## Concrete demo data used by counterexamples and witnesses -/

/-- A stored compliance result with no issues. -/
def demoCompliance : RagResult := { isCompliant := true, issues := [] }

/-- A draft content row with a clean stored compliance result. -/
def demoDraft : Content :=
  { title := "Launch copy"
  , text := "Introducing our new phone."
  , description := none
  , status := .DRAFT
  , version := 1
  , complianceResult := some demoCompliance
  , creatorId := 1
  , workflow := none }

/-- The same draft with no stored compliance result at all. -/
def demoNoResult : Content := { demoDraft with complianceResult := none }

/-- A manager persona. -/
def demoManager : User :=
  { id := 2, name := "Mia", email := "mia@corp.example", role := .MANAGER }

/-- The demo draft right after a successful submit. -/
def demoSubmitted : Content := submitReset demoDraft

/-- The step ids of a content's workflow (empty when no workflow). -/
def stepIds (c : Content) : List Nat :=
  (c.workflow.map fun w => w.steps.map fun s => s.id).getD []

/-! ## Helper lemmas -/

theorem orderedInsert_append_of_forall_not {α : Type} (r : α → α → Prop)
    [DecidableRel r] (a : α) (l₁ l₂ : List α) (h : ∀ x ∈ l₁, ¬ r a x) :
    List.orderedInsert r a (l₁ ++ l₂) = l₁ ++ List.orderedInsert r a l₂ := by
  induction l₁ with
  | nil => simp
  | cons b t ih =>
      have hb : ¬ r a b := h b (by simp)
      simp only [List.cons_append, List.orderedInsert, if_neg hb, List.append_eq]
      rw [ih fun x hx => h x (by simp [hx])]

theorem orderedInsert_of_forall {α : Type} (r : α → α → Prop) [DecidableRel r]
    (a : α) (l : List α) (h : ∀ x ∈ l, r a x) :
    List.orderedInsert r a l = a :: l := by
  cases l with
  | nil => rfl
  | cons b t => simp only [List.orderedInsert, if_pos (h b (by simp))]

/-- The stable sort by severity rank is exactly the three filter buckets
in order, each keeping the original relative order. -/
theorem insertionSort_sevLE (l : List Violation) :
    l.insertionSort sevLE =
      (l.filter fun x => x.severity == Sev.high)
        ++ ((l.filter fun x => x.severity == Sev.medium)
          ++ (l.filter fun x => x.severity == Sev.low)) := by
  induction l with
  | nil => rfl
  | cons a t ih =>
      have hmem : ∀ (s : Sev) (x : Violation),
          x ∈ t.filter (fun y => y.severity == s) → x.severity = s := by
        intro s x hx
        simpa using (List.mem_filter.mp hx).2
      simp only [List.insertionSort]
      rw [ih]
      cases hsev : a.severity with
      | high =>
          rw [orderedInsert_of_forall sevLE a _ ?hall]
          case hall =>
            intro x _
            simp [sevLE, hsev, Sev.rank]
          simp [List.filter_cons, hsev]
      | medium =>
          rw [orderedInsert_append_of_forall_not sevLE a _ _ ?h0,
            orderedInsert_of_forall sevLE a _ ?h12]
          case h0 =>
            intro x hx
            have hxs := hmem .high x hx
            simp [sevLE, hsev, hxs, Sev.rank]
          case h12 =>
            intro x hx
            rcases List.mem_append.mp hx with hx1 | hx2
            · have hxs := hmem .medium x hx1
              simp [sevLE, hsev, hxs, Sev.rank]
            · have hxs := hmem .low x hx2
              simp [sevLE, hsev, hxs, Sev.rank]
          simp [List.filter_cons, hsev]
      | low =>
          rw [← List.append_assoc,
            orderedInsert_append_of_forall_not sevLE a _ _ ?h01,
            orderedInsert_of_forall sevLE a _ ?h2]
          case h01 =>
            intro x hx
            rcases List.mem_append.mp hx with hx1 | hx2
            · have hxs := hmem .high x hx1
              simp [sevLE, hsev, hxs, Sev.rank]
            · have hxs := hmem .medium x hx2
              simp [sevLE, hsev, hxs, Sev.rank]
          case h2 =>
            intro x hx
            have hxs := hmem .low x hx
            simp [sevLE, hsev, hxs, Sev.rank]
          simp [List.filter_cons, hsev, List.append_assoc]

/-! ## Claim theorems -/

/-- C7: for every input text and every active rule set, the issue list
returned by rule-matching evaluation is sorted strictly by severity —
all high items, then all medium, then all low — and within each bucket
the original rule order (the order of `matchedViolations`, which follows
the rule list) is preserved. -/
theorem violations_sorted_by_severity (db : Option (List PolicyRule)) (text : String) :
    (checkCompliance db text).violations =
      ((matchedViolations (getRules db) text).filter fun x => x.severity == Sev.high)
        ++ ((matchedViolations (getRules db) text).filter fun x => x.severity == Sev.medium)
        ++ ((matchedViolations (getRules db) text).filter fun x => x.severity == Sev.low) := by
  simpa [checkCompliance, List.append_assoc]
    using insertionSort_sevLE (matchedViolations (getRules db) text)

/-- C6 counterexample: with an empty active rule set (and no context —
the keyword checker takes none), evaluation does not return a compliant
empty verdict; it falls back to the hardcoded rules and fabricates an
issue for the text "guaranteed". -/
theorem evaluate_empty_rules_cex :
    getRules (some []) = FALLBACK_RULES ∧
    (checkCompliance (some []) "guaranteed").isCompliant = false ∧
    (checkCompliance (some []) "guaranteed").violations.length = 1 :=
  ⟨rfl, by decide, by decide⟩

/-- C6 amended: when the active rule set is empty (or the rule query
fails) evaluation silently substitutes `FALLBACK_RULES`; for every rule
set and text the compliant verdict is returned exactly when no
effective rule pattern occurs in the text, and in the no-match case the
full result is the compliant empty verdict with the rewrite equal to
the original text. -/
theorem evaluate_empty_rules_amended :
    getRules (some []) = FALLBACK_RULES ∧
    (∀ (db : Option (List PolicyRule)) (text : String),
      ((checkCompliance db text).isCompliant = true ↔
        ∀ r ∈ getRules db, lowerContains text r.pattern = false)) ∧
    (∀ (db : Option (List PolicyRule)) (text : String),
      (∀ r ∈ getRules db, lowerContains text r.pattern = false) →
      checkCompliance db text =
        { isCompliant := true, violations := [], suggestedRewrite := text,
          originalText := text }) := by
  have hnil : ∀ (db : Option (List PolicyRule)) (text : String),
      (∀ r ∈ getRules db, lowerContains text r.pattern = false) →
      matchedViolations (getRules db) text = [] := by
    intro db text h
    simp only [matchedViolations, List.filterMap_eq_nil_iff]
    intro r hr
    simp [h r hr]
  refine ⟨rfl, fun db text => ?_, fun db text h => ?_⟩
  · constructor
    · intro hc
      have hlen : (((matchedViolations (getRules db) text).insertionSort
          sevLE).length == 0) = true := hc
      rw [List.length_insertionSort] at hlen
      have hm : matchedViolations (getRules db) text = [] :=
        List.length_eq_zero.mp (by simpa using hlen)
      simp only [matchedViolations, List.filterMap_eq_nil_iff] at hm
      intro r hr
      have := hm r hr
      by_cases hmatch : lowerContains text r.pattern = true
      · rw [if_pos hmatch] at this
        exact absurd this (by simp)
      · simpa using hmatch
    · intro h
      simp [checkCompliance, hnil db text h]
  · simp [checkCompliance, hnil db text h, generateRewrite]

/-- C6 amended witness at concrete inputs: a non-matching text gets the
compliant empty verdict, and a text matching a fallback pattern is
reported non-compliant even though the active rule set is empty. -/
theorem evaluate_empty_rules_amended_witness :
    (checkCompliance (some []) "hello" =
      { isCompliant := true, violations := [], suggestedRewrite := "hello",
        originalText := "hello" }) ∧
    (checkCompliance (some []) "guaranteed").isCompliant = false := by
  refine ⟨evaluate_empty_rules_amended.2.2 (some []) "hello" (by decide), ?_⟩
  by_contra hne
  have htrue : (checkCompliance (some []) "guaranteed").isCompliant = true := by
    cases h : (checkCompliance (some []) "guaranteed").isCompliant
    · exact absurd h hne
    · rfl
  have hall := (evaluate_empty_rules_amended.2.1 (some []) "guaranteed").mp htrue
  have hr : ({ pattern := "guaranteed"
             , reason := "'Guaranteed' implies legal warranty; verify with Legal."
             , suggestion := "designed to"
             , category := "legal"
             , severity := .medium } : PolicyRule) ∈ getRules (some []) := by
    decide
  exact absurd (hall _ hr) (by decide)

/-- C8 counterexample: for the fallback rule set and the text
"guaranteeguaranteed", the only matched rule is "guaranteed", yet the
suggested rewrite "guaranteedesigned to" still contains the matched
pattern case-insensitively, and re-evaluating the rewrite re-triggers
the very same rule. -/
theorem rewrite_roundtrip_cex :
    ((checkCompliance (some FALLBACK_RULES) "guaranteeguaranteed").violations.map
        fun v => v.pattern) = ["guaranteed"] ∧
    (checkCompliance (some FALLBACK_RULES) "guaranteeguaranteed").suggestedRewrite
      = "guaranteedesigned to" ∧
    lowerContains
      (checkCompliance (some FALLBACK_RULES) "guaranteeguaranteed").suggestedRewrite
      "guaranteed" = true ∧
    ((checkCompliance (some FALLBACK_RULES)
        ((checkCompliance (some FALLBACK_RULES) "guaranteeguaranteed").suggestedRewrite)).violations.map
        fun v => v.pattern) = ["guaranteed"] :=
  ⟨by decide, by decide, by decide, by decide⟩

/-- C8 amended: the round trip is not universal — a replacement can
recreate a matched pattern at a substitution boundary (see the
counterexample) — but it does hold for the demo rule set on the spec's
Scenario A text: every matched pattern is replaced and re-evaluating the
rewrite yields a compliant result with no issues. -/
theorem rewrite_roundtrip_amended :
    ((checkCompliance (some FALLBACK_RULES)
        "Our phone is 100% waterproof and guaranteed to never fail.").violations.map
        fun v => v.pattern) = ["100% waterproof", "waterproof", "guaranteed"] ∧
    (checkCompliance (some FALLBACK_RULES)
        ((checkCompliance (some FALLBACK_RULES)
          "Our phone is 100% waterproof and guaranteed to never fail.").suggestedRewrite)).isCompliant
      = true ∧
    (checkCompliance (some FALLBACK_RULES)
        ((checkCompliance (some FALLBACK_RULES)
          "Our phone is 100% waterproof and guaranteed to never fail.").suggestedRewrite)).violations
      = [] :=
  ⟨by decide, by decide, by decide⟩

/-- C9: the chunking loop of `chunkText` (chunk size 500, overlap 50)
never terminates on the one-character text "a": for every iteration
bound the loop is still running.  Once `end` reaches the text length,
`start = end - overlap` stays strictly below the length, and the break
guard `start >= text.length` can never fire because `end ≤ length <
length + overlap`. -/
theorem chunkText_nonterminating : ∀ fuel : Nat, chunkText "a" fuel = none := by
  have stuck : ∀ (n : Nat) (chunks : List (List Char)),
      chunkTextLoop ['a'] 500 50 n (-49) chunks = none := by
    intro n
    induction n with
    | zero => intro chunks; rfl
    | succ m ih => intro chunks; exact ih (chunks ++ [['a']])
  intro fuel
  cases fuel with
  | zero => rfl
  | succ n =>
      show (chunkTextLoop ['a'] 500 50 (n + 1) 0 []).map _ = none
      have h1 : chunkTextLoop ['a'] 500 50 (n + 1) 0 [] =
          chunkTextLoop ['a'] 500 50 n (-49) [['a']] := rfl
      rw [h1, stuck n]
      rfl

/-- C10: every successful edit increments the version by exactly one and
leaves status and creator unchanged, whatever combination of text,
title and description is supplied (including title/description-only
edits that leave the text identical). -/
theorem edit_increments_version_frame (c : Content) (text : Option String)
    (title : Option String) (description : Option (Option String))
    (recheck : String → Option RagResult) (c2 : Content)
    (h : updateContent c text title description recheck = .ok c2) :
    c2.version = c.version + 1 ∧ c2.status = c.status ∧ c2.creatorId = c.creatorId := by
  unfold updateContent at h
  split at h
  · exact absurd h (by simp)
  · simp only [Except.ok.injEq] at h
    subst h
    exact ⟨rfl, rfl, rfl⟩

/-- C10 witness: a title-only edit of the demo draft bumps the version
from 1 to 2 and keeps status and creator. -/
theorem edit_increments_version_frame_witness :
    ((updateContent demoDraft none (some "New title") none
        (fun _ => none)).toOption.getD demoDraft).version = demoDraft.version + 1 ∧
    ((updateContent demoDraft none (some "New title") none
        (fun _ => none)).toOption.getD demoDraft).status = demoDraft.status ∧
    ((updateContent demoDraft none (some "New title") none
        (fun _ => none)).toOption.getD demoDraft).creatorId = demoDraft.creatorId :=
  edit_increments_version_frame demoDraft none (some "New title") none
    (fun _ => none) _ rfl

/-- C1: the submit-time compliance gate is a pure function of the stored
compliance result: with a result stored, submission is blocked (errors)
iff the result's issue list contains at least one item of severity
"high"; for every other issue set — empty, or only medium/low items —
submission is allowed and performs the workflow reset. -/
theorem submitGate_blocks_iff_high_issue (c : Content) (comp : RagResult)
    (h : c.complianceResult = some comp) :
    ((∃ e, submitContent c = .error e) ↔ ∃ i ∈ comp.issues, i.severity = "high") ∧
    (submitContent c = .error (.Blocked (highIssuesOf comp)) ∨
      submitContent c = .ok (submitReset c)) := by
  have hsub : submitContent c =
      if (highIssuesOf comp).length > 0 then
        Except.error (.Blocked (highIssuesOf comp))
      else .ok (submitReset c) := by
    simp only [submitContent, h]
  by_cases hlen : (highIssuesOf comp).length > 0
  · rw [hsub, if_pos hlen]
    refine ⟨⟨fun _ => ?_, fun _ => ⟨_, rfl⟩⟩, Or.inl rfl⟩
    obtain ⟨i, hi⟩ := List.exists_mem_of_length_pos hlen
    have hmem := List.mem_filter.mp hi
    exact ⟨i, hmem.1, by simpa using hmem.2⟩
  · rw [hsub, if_neg hlen]
    refine ⟨⟨fun he => ?_, fun hex => ?_⟩, Or.inr rfl⟩
    · obtain ⟨e, he⟩ := he
      simp at he
    · obtain ⟨i, hmem, hsev⟩ := hex
      have : i ∈ highIssuesOf comp :=
        List.mem_filter.mpr ⟨hmem, by simp [hsev]⟩
      exact absurd (List.length_pos_of_mem this) hlen

/-- C1 witness at the demo draft, whose stored result has no issues. -/
theorem submitGate_blocks_iff_high_issue_witness :
    ((∃ e, submitContent demoDraft = .error e) ↔
      ∃ i ∈ demoCompliance.issues, i.severity = "high") ∧
    (submitContent demoDraft = .error (.Blocked (highIssuesOf demoCompliance)) ∨
      submitContent demoDraft = .ok (submitReset demoDraft)) :=
  submitGate_blocks_iff_high_issue demoDraft demoCompliance rfl

/-- C3: when the generative backend fails (API error, timeout, or an
unparseable reply), the RAG evaluation that still returns a result
returns the conservative fallback verdict — `isCompliant = false` with
exactly one synthetic issue flagging that automatic analysis failed —
never a compliant verdict.  (When instead the vector-store search
throws, the whole call throws, so no result — in particular no
compliant one — is returned either.) -/
theorem rag_backend_failure_fails_closed (text : String)
    (search : Except Unit (List String)) (r : RagResult)
    (h : ragCheckCompliance text search .failed = .ok r) :
    r.isCompliant = false ∧
    r.issues = [ { text := text, severity := "medium",
                   reason := "Unable to analyze compliance due to API error",
                   suggestion := "Please review manually" } ] := by
  cases search with
  | error e => simp [ragCheckCompliance] at h
  | ok chunks =>
      simp only [ragCheckCompliance, analyzeWithGemini, fallbackAnalysis,
        Except.ok.injEq] at h
      rw [← h]
      exact ⟨rfl, rfl⟩

/-- C3 witness: a concrete failed-backend evaluation. -/
theorem rag_backend_failure_fails_closed_witness :
    ((ragCheckCompliance "ad copy" (.ok []) .failed).toOption.getD
        demoCompliance).isCompliant = false ∧
    ((ragCheckCompliance "ad copy" (.ok []) .failed).toOption.getD
        demoCompliance).issues =
      [ { text := "ad copy", severity := "medium",
          reason := "Unable to analyze compliance due to API error",
          suggestion := "Please review manually" } ] :=
  rag_backend_failure_fails_closed "ad copy" (.ok []) _ rfl

/-- C4 counterexample: the demo draft with no stored compliance result is
not blocked — submit succeeds and creates the workflow. -/
theorem submit_without_result_cex :
    demoNoResult.complianceResult = none ∧
    submitContent demoNoResult = .ok (submitReset demoNoResult) ∧
    (submitReset demoNoResult).workflow = some freshWorkflow ∧
    (submitReset demoNoResult).status = .PENDING_REVIEW :=
  ⟨rfl, rfl, rfl, rfl⟩

/-- C4 amended: submit does not require a stored compliance result — for
every content whose stored result is absent, the gate is skipped
entirely and submission succeeds, creating the fresh workflow and
marking the content `PENDING_REVIEW`. -/
theorem submit_without_result_amended (c : Content)
    (h : c.complianceResult = none) :
    submitContent c = .ok (submitReset c) ∧
    (submitReset c).workflow = some freshWorkflow ∧
    (submitReset c).status = .PENDING_REVIEW := by
  refine ⟨?_, rfl, rfl⟩
  simp [submitContent, h]

/-- C4 amended witness. -/
theorem submit_without_result_amended_witness :
    submitContent demoNoResult = .ok (submitReset demoNoResult) ∧
    (submitReset demoNoResult).workflow = some freshWorkflow ∧
    (submitReset demoNoResult).status = .PENDING_REVIEW :=
  submit_without_result_amended demoNoResult rfl


/-- A list whose image under `f` is a singleton is itself a singleton. -/
theorem map_eq_singleton {a b : Type} (f : a → b) (l : List a) (v : b)
    (h : l.map f = [v]) : ∃ y, l = [y] ∧ f y = v := by
  cases l with
  | nil => simp at h
  | cons y t =>
      simp only [List.map_cons, List.cons.injEq, List.map_eq_nil_iff] at h
      exact ⟨y, by simp [h.2], h.1⟩

/-- With pairwise-distinct step ids, filtering a step list for a member
step's id yields exactly that step. -/
theorem filter_id_eq_of_nodup (l : List ApprovalStep) (a : ApprovalStep)
    (hn : (l.map fun s => s.id).Nodup) (ha : a ∈ l) :
    l.filter (fun x => x.id == a.id) = [a] := by
  induction l with
  | nil => cases ha
  | cons b t ih =>
      rw [List.map_cons, List.nodup_cons] at hn
      rcases List.mem_cons.mp ha with hba | hat
      · subst hba
        rw [List.filter_cons, if_pos (by simp)]
        have ht : t.filter (fun x => x.id == a.id) = [] := by
          rw [List.filter_eq_nil_iff]
          intro x hx hxa
          exact hn.1 (by
            have : x.id = a.id := by simpa using hxa
            rw [← this]
            exact List.mem_map_of_mem (fun s => s.id) hx)
        rw [ht]
      · have hbne : (b.id == a.id) = false := by
          by_contra hcon
          have hba : b.id = a.id := by
            have := Bool.not_eq_false _ |>.mp hcon
            simpa using this
          exact hn.1 (hba ▸ List.mem_map_of_mem (fun s => s.id) hat)
        rw [List.filter_cons, if_neg (by simp [hbne])]
        exact ih hn.2 hat

/-- With pairwise-distinct step ids, looking a member step up by id finds
exactly that step. -/
theorem find?_id_eq_of_nodup (l : List ApprovalStep) (a : ApprovalStep)
    (hn : (l.map fun s => s.id).Nodup) (ha : a ∈ l) :
    l.find? (fun x => x.id == a.id) = some a := by
  induction l with
  | nil => cases ha
  | cons b t ih =>
      rw [List.map_cons, List.nodup_cons] at hn
      rcases List.mem_cons.mp ha with hba | hat
      · subst hba
        simp [List.find?_cons]
      · have hbne : (b.id == a.id) = false := by
          by_contra hcon
          have hba : b.id = a.id := by
            have := Bool.not_eq_false _ |>.mp hcon
            simpa using this
          exact hn.1 (hba ▸ List.mem_map_of_mem (fun s => s.id) hat)
        rw [List.find?_cons_of_neg _ (by simp [hbne])]
        exact ih hn.2 hat

/-- Unfolding of `activeInv` when a workflow is present. -/
theorem activeInv_of_workflow (c : Content) (w : Workflow) (h : c.workflow = some w) :
    activeInv c =
      (w.status != .ACTIVE
        || ((stepsInProgress w).map (fun s => s.stepNumber) == [w.currentStep])) := by
  simp [activeInv, h]

/-- Unfolding of `activeInvWeak` when a workflow is present. -/
theorem activeInvWeak_of_workflow (c : Content) (w : Workflow) (h : c.workflow = some w) :
    activeInvWeak c =
      (w.status != .ACTIVE
        || (((stepsInProgress w).map (fun s => s.stepNumber) == [])
          || ((stepsInProgress w).map (fun s => s.stepNumber) == [w.currentStep]))) := by
  simp [activeInvWeak, h]

/-- After approving the unique `IN_PROGRESS` step and promoting the next
step, the `IN_PROGRESS` steps are exactly the promoted one. -/
theorem filter_ip_after_approve
    (steps : List ApprovalStep) (step nxt : ApprovalStep) (uid : Option Nat)
    (hids : (steps.map fun s => s.id).Nodup)
    (huniq : steps.filter (fun s => s.status == StepStatus.IN_PROGRESS) = [step])
    (hnxtmem : nxt ∈ steps) (hne : step.id ≠ nxt.id) :
    ((steps.map fun s => if s.id == step.id then setApproved uid s else s).map
        fun s => if s.id == nxt.id then { s with status := StepStatus.IN_PROGRESS }
        else s).filter
      (fun s => s.status == StepStatus.IN_PROGRESS)
      = [{ nxt with status := StepStatus.IN_PROGRESS }] := by
  rw [List.map_map, List.filter_map]
  have hfid : ∀ s : ApprovalStep,
      (if s.id == step.id then setApproved uid s else s).id = s.id := by
    intro s
    by_cases h : s.id == step.id <;> simp [h, setApproved]
  have hcong : ∀ x ∈ steps,
      ((fun s => s.status == StepStatus.IN_PROGRESS) ∘
        ((fun s => if s.id == nxt.id then { s with status := StepStatus.IN_PROGRESS }
            else s) ∘
          fun s => if s.id == step.id then setApproved uid s else s)) x
        = (x.id == nxt.id) := by
    intro x hx
    simp only [Function.comp_apply, hfid]
    by_cases h1 : (x.id == nxt.id) = true
    · rw [if_pos h1]
      simp [h1]
    · rw [if_neg h1]
      by_cases h2 : (x.id == step.id) = true
      · rw [if_pos h2]
        have h1f : (x.id == nxt.id) = false := by simpa using h1
        simp [setApproved, h1f]
      · rw [if_neg h2]
        by_cases h3 : (x.status == StepStatus.IN_PROGRESS) = true
        · exfalso
          have hm : x ∈ steps.filter (fun s => s.status == StepStatus.IN_PROGRESS) :=
            List.mem_filter.mpr ⟨hx, h3⟩
          rw [huniq] at hm
          have hxstep : x = step := by simpa using hm
          rw [hxstep] at h2
          simp at h2
        · have h1f : (x.id == nxt.id) = false := by simpa using h1
          have h3f : (x.status == StepStatus.IN_PROGRESS) = false := by simpa using h3
          rw [h1f, h3f]
  rw [List.filter_congr hcong, filter_id_eq_of_nodup steps nxt hids hnxtmem]
  simp only [List.map_cons, List.map_nil, Function.comp_apply]
  rw [if_neg (show ¬(nxt.id == step.id) = true by
    simp only [beq_iff_eq]
    exact fun hh => hne hh.symm)]
  rw [if_pos (by simp)]

/-- A successful approve preserves the exactly-one-`IN_PROGRESS`
invariant (step ids are pairwise distinct, as guaranteed by the primary
key). -/
theorem approve_preserves_activeInv (c : Content) (sid : Nat) (actor : Option User)
    (c2 : Content) (hn : (stepIds c).Nodup) (hinv : activeInv c = true)
    (happ : approveStep c sid actor = .ok c2) : activeInv c2 = true := by
  simp only [approveStep] at happ
  split at happ
  · exact absurd happ (by simp)
  next w hw =>
    split at happ
    · exact absurd happ (by simp)
    next step hfind =>
      split at happ
      · exact absurd happ (by simp)
      next hstat =>
        split at happ
        · exact absurd happ (by simp)
        next hrole =>
          split at happ
          next nxt hnxt =>
            simp only [Except.ok.injEq] at happ
            subst happ
            rw [activeInv_of_workflow _ _ rfl]
            by_cases hact : w.status = WorkflowStatus.ACTIVE
            case neg =>
              simp only [Bool.or_eq_true, bne_iff_ne, ne_eq]
              exact Or.inl hact
            case pos =>
              rw [activeInv_of_workflow c w hw] at hinv
              simp only [hact, bne_self_eq_false, Bool.false_or, beq_iff_eq] at hinv
              obtain ⟨y, hy, hynum⟩ := map_eq_singleton _ _ _ hinv
              have hstepmem : step ∈ w.steps := List.mem_of_find?_eq_some hfind
              have hstepstat : step.status = .IN_PROGRESS := by
                simpa using hstat
              have hstepy : step = y := by
                have hm : step ∈ stepsInProgress w :=
                  List.mem_filter.mpr ⟨hstepmem, by simp [hstepstat]⟩
                rw [hy] at hm
                simpa using hm
              have huniq : stepsInProgress w = [step] := by rw [hy, hstepy]
              have hnxtmem : nxt ∈ w.steps := List.mem_of_find?_eq_some hnxt
              have hnxtnum : nxt.stepNumber = step.stepNumber + 1 := by
                simpa using List.find?_some hnxt
              have hids : (w.steps.map fun s => s.id).Nodup := by
                simpa [stepIds, hw] using hn
              have hne : step.id ≠ nxt.id := by
                intro he
                have heq : step = nxt :=
                  List.inj_on_of_nodup_map hids hstepmem hnxtmem he
                rw [heq] at hnxtnum
                omega
              have key := filter_ip_after_approve w.steps step nxt
                (actor.map fun u => u.id) hids huniq hnxtmem hne
              refine Bool.or_eq_true_iff.mpr (Or.inr (beq_iff_eq.mpr ?_))
              show ((((w.steps.map fun s =>
                    if s.id == step.id then setApproved (actor.map fun u => u.id) s
                    else s).map fun s =>
                      if s.id == nxt.id then { s with status := StepStatus.IN_PROGRESS }
                      else s).filter
                  (fun s => s.status == StepStatus.IN_PROGRESS)).map fun s => s.stepNumber)
                = [nxt.stepNumber]
              rw [key]
              rfl
          next hnone =>
            simp only [Except.ok.injEq] at happ
            subst happ
            rw [activeInv_of_workflow _ _ rfl]
            rfl

/-- A successful reject leaves at most one `IN_PROGRESS` step (in fact
none): the workflow stays `ACTIVE` but only the weak invariant
survives. -/
theorem reject_preserves_weak (c : Content) (sid : Nat) (actor : Option User)
    (fb : String) (c2 : Content) (hinv : activeInv c = true)
    (hrej : rejectStep c sid actor fb = .ok c2) : activeInvWeak c2 = true := by
  simp only [rejectStep] at hrej
  split at hrej
  · exact absurd hrej (by simp)
  split at hrej
  · exact absurd hrej (by simp)
  next w hw =>
    split at hrej
    · exact absurd hrej (by simp)
    next step hfind =>
      split at hrej
      · exact absurd hrej (by simp)
      next hstat =>
        simp only [Except.ok.injEq] at hrej
        subst hrej
        rw [activeInvWeak_of_workflow _ _ rfl]
        by_cases hact : w.status = WorkflowStatus.ACTIVE
        case neg =>
          refine Bool.or_eq_true_iff.mpr (Or.inl ?_)
          simpa [bne_iff_ne] using hact
        case pos =>
          rw [activeInv_of_workflow c w hw] at hinv
          simp only [hact, bne_self_eq_false, Bool.false_or, beq_iff_eq] at hinv
          obtain ⟨y, hy, hynum⟩ := map_eq_singleton _ _ _ hinv
          have hstepmem : step ∈ w.steps := List.mem_of_find?_eq_some hfind
          have hstepstat : step.status = .IN_PROGRESS := by simpa using hstat
          have hstepy : step = y := by
            have hm : step ∈ stepsInProgress w :=
              List.mem_filter.mpr ⟨hstepmem, by simp [hstepstat]⟩
            rw [hy] at hm
            simpa using hm
          have huniq : stepsInProgress w = [step] := by rw [hy, hstepy]
          refine Bool.or_eq_true_iff.mpr (Or.inr (Bool.or_eq_true_iff.mpr
            (Or.inl (beq_iff_eq.mpr ?_))))
          show ((w.steps.map fun s =>
              if s.id == step.id then
                { s with
                  status := StepStatus.REJECTED,
                  assigneeId := actor.map fun u => u.id,
                  feedback := some fb }
              else s).filter
            (fun s => s.status == StepStatus.IN_PROGRESS)).map (fun s => s.stepNumber)
            = []
          rw [List.filter_map]
          have hcong : ∀ x ∈ w.steps,
              ((fun s => s.status == StepStatus.IN_PROGRESS) ∘ fun s =>
                if s.id == step.id then
                  { s with
                    status := StepStatus.REJECTED,
                    assigneeId := actor.map fun u => u.id,
                    feedback := some fb }
                else s) x = false := by
            intro x hx
            simp only [Function.comp_apply]
            by_cases h2 : (x.id == step.id) = true
            · rw [if_pos h2]
              simp
            · rw [if_neg h2]
              by_cases h3 : (x.status == StepStatus.IN_PROGRESS) = true
              · exfalso
                have hm : x ∈ stepsInProgress w := List.mem_filter.mpr ⟨hx, h3⟩
                rw [huniq] at hm
                have hxstep : x = step := by simpa using hm
                rw [hxstep] at h2
                simp at h2
              · simpa using h3
          rw [List.filter_congr hcong]
          simp

/-- A successful submit establishes the exactly-one-`IN_PROGRESS`
invariant outright: the fresh workflow has step 1 `IN_PROGRESS` and
`currentStep = 1`. -/
theorem submit_establishes_activeInv (c c2 : Content)
    (h : submitContent c = .ok c2) : activeInv c2 = true := by
  have hc2 : c2 = submitReset c := by
    simp only [submitContent] at h
    split at h
    next comp hcomp =>
      split at h
      · exact absurd h (by simp)
      · simpa using h.symm
    next hnone => simpa using h.symm
  rw [hc2, activeInv_of_workflow _ _ rfl]
  rfl

/-- C2 counterexample: the invariant is not preserved by Reject.  From
the submitted demo content (where it holds), rejecting step 1 succeeds
and leaves the workflow `ACTIVE` with zero `IN_PROGRESS` steps, so
"exactly one `IN_PROGRESS` step" fails on a reachable state. -/
theorem workflow_active_invariant_cex :
    submitContent demoDraft = .ok demoSubmitted ∧
    activeInv demoSubmitted = true ∧
    (rejectStep demoSubmitted 1 none "fix claim X").toOption.map
      (fun c => (activeInv c, c.workflow.map fun w => w.status))
      = some (false, some .ACTIVE) :=
  ⟨rfl, by decide, by decide⟩

/-- C2 amended: Submit establishes and Approve preserves the invariant
that an `ACTIVE` workflow has exactly one `IN_PROGRESS` step whose
number is `currentStep` (given the primary-key distinctness of step
ids); Reject only preserves the weakening "at most one `IN_PROGRESS`
step, and when one exists its number is `currentStep`" — after a reject
the workflow remains `ACTIVE` with no `IN_PROGRESS` step. -/
theorem workflow_active_invariant_amended :
    (∀ c c2, submitContent c = .ok c2 → activeInv c2 = true) ∧
    (∀ c sid actor c2, (stepIds c).Nodup → activeInv c = true →
      approveStep c sid actor = .ok c2 → activeInv c2 = true) ∧
    (∀ c sid actor fb c2, activeInv c = true →
      rejectStep c sid actor fb = .ok c2 → activeInvWeak c2 = true) :=
  ⟨submit_establishes_activeInv,
   fun c sid actor c2 hn hinv h => approve_preserves_activeInv c sid actor c2 hn hinv h,
   fun c sid actor fb c2 hinv h => reject_preserves_weak c sid actor fb c2 hinv h⟩

/-- C2 amended witness: the approve and reject parts applied to the
submitted demo content. -/
theorem workflow_active_invariant_amended_witness :
    activeInv ((approveStep demoSubmitted 1 (some demoManager)).toOption.getD
      demoDraft) = true ∧
    activeInvWeak ((rejectStep demoSubmitted 1 none "fix claim X").toOption.getD
      demoDraft) = true :=
  ⟨workflow_active_invariant_amended.2.1 demoSubmitted 1 (some demoManager) _
      (by decide) (by decide) rfl,
   workflow_active_invariant_amended.2.2 demoSubmitted 1 none "fix claim X" _
      (by decide) rfl⟩

/-- C5: a successful approve of the step found by id fires exactly one
of two effects, decided by whether a step numbered `stepNumber + 1`
exists: if it does, that step becomes `IN_PROGRESS`, `currentStep`
advances to it, content becomes `IN_REVIEW` and the workflow status is
untouched; if not, the workflow becomes `COMPLETED`, the content
`APPROVED`, and `currentStep` is untouched. -/
theorem approve_advances_or_completes (c : Content) (w : Workflow)
    (step : ApprovalStep) (sid : Nat) (actor : Option User) (c2 : Content)
    (hw : c.workflow = some w)
    (hn : (w.steps.map fun s => s.id).Nodup)
    (hfind : w.steps.find? (fun s => s.id == sid) = some step)
    (happ : approveStep c sid actor = .ok c2) :
    ∃ w2, c2.workflow = some w2 ∧
      (match w.steps.find? (fun s => s.stepNumber == step.stepNumber + 1) with
       | some nxt =>
           w2.currentStep = nxt.stepNumber ∧
           c2.status = .IN_REVIEW ∧
           w2.status = w.status ∧
           w2.steps.find? (fun s => s.id == nxt.id) =
             some { nxt with status := .IN_PROGRESS }
       | none =>
           w2.status = .COMPLETED ∧
           c2.status = .APPROVED ∧
           w2.currentStep = w.currentStep) := by
  simp only [approveStep, hw, hfind] at happ
  split at happ
  · exact absurd happ (by simp)
  next hstat =>
    split at happ
    · exact absurd happ (by simp)
    next hrole =>
      split at happ
      next nxt hnxt =>
        simp only [Except.ok.injEq] at happ
        subst happ
        refine ⟨_, rfl, rfl, rfl, rfl, ?_⟩
        have hnxtmem : nxt ∈ w.steps := List.mem_of_find?_eq_some hnxt
        have hnum : nxt.stepNumber = step.stepNumber + 1 := by
          simpa using List.find?_some hnxt
        have hstepmem : step ∈ w.steps := List.mem_of_find?_eq_some hfind
        have hne : step.id ≠ nxt.id := by
          intro he
          have heq : step = nxt := List.inj_on_of_nodup_map hn hstepmem hnxtmem he
          rw [heq] at hnum
          omega
        show (((w.steps.map fun s =>
            if s.id == step.id then setApproved (actor.map fun u => u.id) s
            else s).map fun s =>
              if s.id == nxt.id then { s with status := StepStatus.IN_PROGRESS }
              else s).find?
          (fun s => s.id == nxt.id))
          = some { nxt with status := StepStatus.IN_PROGRESS }
        rw [List.map_map, List.find?_map]
        have hfun : ((fun s : ApprovalStep => s.id == nxt.id) ∘
            ((fun s => if s.id == nxt.id then { s with status := StepStatus.IN_PROGRESS }
                else s) ∘
              fun s => if s.id == step.id then setApproved (actor.map fun u => u.id) s
                else s)) = fun s : ApprovalStep => s.id == nxt.id := by
          funext s
          simp only [Function.comp_apply]
          by_cases h2 : (s.id == step.id) = true
          · rw [if_pos h2]
            by_cases h1 : (s.id == nxt.id) = true
            · have hs : s.id = nxt.id := by simpa using h1
              have h2s : s.id = step.id := by simpa using h2
              exact absurd (h2s ▸ hs) hne
            · have h1f : (s.id == nxt.id) = false := by simpa using h1
              rw [show ((setApproved (actor.map fun u => u.id) s).id == nxt.id)
                  = (s.id == nxt.id) from by simp [setApproved], h1f, if_neg (by simp [h1f])]
              simp [setApproved, h1f]
          · rw [if_neg h2]
            by_cases h1 : (s.id == nxt.id) = true
            · rw [if_pos h1]
            · rw [if_neg h1]
        rw [hfun, find?_id_eq_of_nodup w.steps nxt hn hnxtmem]
        show some (((fun s => if s.id == nxt.id then
              { s with status := StepStatus.IN_PROGRESS } else s) ∘
            fun s => if s.id == step.id then setApproved (actor.map fun u => u.id) s
              else s) nxt)
          = some { nxt with status := StepStatus.IN_PROGRESS }
        simp only [Function.comp_apply]
        rw [if_neg (show ¬(nxt.id == step.id) = true by
          simp only [beq_iff_eq]
          exact fun hh => hne hh.symm)]
        rw [if_pos (by simp)]
      next hnone =>
        simp only [Except.ok.injEq] at happ
        subst happ
        exact ⟨_, rfl, rfl, rfl, rfl⟩

/-- C5 witness: approving step 1 of the freshly submitted demo workflow
takes the next-step branch. -/
theorem approve_advances_or_completes_witness :
    ∃ w2, ((approveStep demoSubmitted 1 (some demoManager)).toOption.getD
        demoDraft).workflow = some w2 ∧
      (w2.currentStep = 2 ∧
       ((approveStep demoSubmitted 1 (some demoManager)).toOption.getD
          demoDraft).status = .IN_REVIEW ∧
       w2.status = .ACTIVE ∧
       w2.steps.find? (fun s => s.id == 2) =
         some { id := 2, stepNumber := 2, stepName := "Legal Review",
                requiredRole := .LEGAL, status := .IN_PROGRESS,
                assigneeId := none, feedback := none }) :=
  approve_advances_or_completes demoSubmitted freshWorkflow
    { id := 1, stepNumber := 1, stepName := "Manager Review",
      requiredRole := .MANAGER, status := .IN_PROGRESS,
      assigneeId := none, feedback := none }
    1 (some demoManager) _ rfl (by decide) (by decide) rfl

end AdobeAddon
